import Mathlib

/-!
Verification of the datastore mutation layer and the firestore query-builder
layer of this repository.

The datastore side (`Mutation`, `NewInsert`, `NewUpsert`, `NewUpdate`,
`NewDelete`, `mutationProtos`) is embedded directly from
`src/datastore/mutation.go`.  The key primitives (`Key.valid`,
`Key.Incomplete`, `Key.String`) and the entity encoder (`saveEntity`) live
outside the sources provided here; they are modelled from the spec, which
treats them as opaque external collaborators.
-/

/-- Modelled from the spec: the datastore entity key (the key type itself is
outside the sources; the spec says a key has a kind and a final identifying
component, assigned by the backend when absent).  The final component is
either a numeric `id` or a string `name`. -/
structure Key where
  kind : String
  id : Int
  name : String
deriving DecidableEq, Repr

/-- Modelled from the spec: a key is "incomplete" if it lacks a final
identifying component. -/
def Key.Incomplete (k : Key) : Bool :=
  k.name = "" && k.id = 0

/-- Modelled from the spec: structural validity of a key (`ErrInvalidKey`
when violated): the kind must be non-empty and the key cannot carry both a
numeric id and a string name. -/
def Key.valid (k : Key) : Bool :=
  k.kind ≠ "" && !(k.name ≠ "" && k.id ≠ 0)

/-- Modelled from the spec: `keyToString`, the canonical string form of a
key, used by batch assembly to deduplicate deletions. -/
def Key.str (k : Key) : String :=
  "/" ++ k.kind ++ "," ++ (if k.name ≠ "" then k.name else toString k.id)

/-- A wire entity produced by the external encoder. -/
structure Entity where
  key : Key
  props : String
deriving DecidableEq, Repr

/-- Errors arising in the datastore mutation layer. -/
inductive DsErr where
  | invalidKey : DsErr
  | incompleteKey (verb : String) (k : Key) : DsErr
  | encoding (msg : String) : DsErr
deriving DecidableEq, Repr

/-- The sticky error for a structurally invalid key. -/
def ErrInvalidKey : DsErr := .invalidKey

/-- A source value handed to the entity encoder, modelled by its encoding
outcome: either it encodes to properties `props`, or encoding fails. -/
inductive Src where
  | value (props : String) : Src
  | bad (msg : String) : Src
deriving DecidableEq, Repr

/-- Modelled from the spec: the external collaborator `encodeEntity`
(`saveEntity` in the source), which encodes a source value into a wire
entity for key `k`, propagating any encoding error. -/
def saveEntity (k : Key) (src : Src) : Except DsErr Entity :=
  match src with
  | .value p => .ok { key := k, props := p }
  | .bad m => .error (.encoding m)

/-- The operation stored in a wire mutation (`pb.Mutation.Operation`). -/
inductive PbMutation where
  | insert (e : Entity) : PbMutation
  | upsert (e : Entity) : PbMutation
  | update (e : Entity) : PbMutation
  | delete (k : Key) : PbMutation
deriving DecidableEq, Repr

/-- A Mutation represents a change to a Datastore entity
(`src/datastore/mutation.go`): the key (needed to dedup deletions), the wire
mutation, and a sticky error when the Mutation is not valid. -/
structure Mutation where
  key : Option Key
  wire : Option PbMutation
  err : Option DsErr
deriving DecidableEq, Repr

/-- Whether the wire operation of `m` is a delete (`Mutation.isDelete`). -/
def Mutation.isDelete (m : Mutation) : Bool :=
  match m.wire with
  | some (.delete _) => true
  | _ => false

/-- The canonical string of the mutation's key (`m.key.String()`); error
mutations carry no key and are never asked for it by the source. -/
def Mutation.keyStr (m : Mutation) : String :=
  match m.key with
  | some k => k.str
  | none => ""

/-- NewInsert creates a Mutation that will save the entity src into the
datastore with key k (`src/datastore/mutation.go` lines 41-53). -/
def NewInsert (k : Key) (src : Src) : Mutation :=
  if !k.valid then { key := none, wire := none, err := some ErrInvalidKey }
  else
    match saveEntity k src with
    | .error e => { key := none, wire := none, err := some e }
    | .ok p => { key := some k, wire := some (.insert p), err := none }

/-- NewUpsert creates a Mutation that saves the entity src into the
datastore with key k, whether or not k exists (lines 57-69). -/
def NewUpsert (k : Key) (src : Src) : Mutation :=
  if !k.valid then { key := none, wire := none, err := some ErrInvalidKey }
  else
    match saveEntity k src with
    | .error e => { key := none, wire := none, err := some e }
    | .ok p => { key := some k, wire := some (.upsert p), err := none }

/-- NewUpdate creates a Mutation that replaces the entity in the datastore
with key k (lines 75-90); it additionally rejects incomplete keys. -/
def NewUpdate (k : Key) (src : Src) : Mutation :=
  if !k.valid then { key := none, wire := none, err := some ErrInvalidKey }
  else if k.Incomplete then
    { key := none, wire := none, err := some (.incompleteKey "update" k) }
  else
    match saveEntity k src with
    | .error e => { key := none, wire := none, err := some e }
    | .ok p => { key := some k, wire := some (.update p), err := none }

/-- NewDelete creates a Mutation that deletes the entity with key k
(lines 93-104); no entity encoding is involved. -/
def NewDelete (k : Key) : Mutation :=
  if !k.valid then { key := none, wire := none, err := some ErrInvalidKey }
  else if k.Incomplete then
    { key := none, wire := none, err := some (.incompleteKey "delete" k) }
  else
    { key := some k, wire := some (.delete k), err := none }

/-- The second pass of `mutationProtos` (lines 120-132): collect protos,
removing duplicate deletions; `seen` is the set of canonical key strings of
delete mutations already processed. -/
def protosLoop : List Mutation → List String → List PbMutation
  | [], _ => []
  | m :: rest, seen =>
    if m.isDelete then
      if m.keyStr ∈ seen then protosLoop rest seen
      else m.wire.toList ++ protosLoop rest (m.keyStr :: seen)
    else m.wire.toList ++ protosLoop rest seen

/-- The batch assembler `mutationProtos` (lines 106-134): if any of the mutations have errors,
collect and return them as a positional `MultiError` (one slot per input);
otherwise collect protos, removing duplicate deletions. -/
def mutationProtos (muts : List Mutation) : Except (List (Option DsErr)) (List PbMutation) :=
  if muts.any (fun m => m.err.isSome) then .error (muts.map Mutation.err)
  else .ok (protosLoop muts [])

/-- Spec-side formulation of the deduplication rule for comparison with the
source: walking the list with the already-processed prefix `prev` at hand, a
mutation is dropped exactly when it is a Delete and some earlier mutation in
the list is a Delete on a key with the same canonical string form;
everything else is emitted in order. -/
def dedupEarlierDeletes (prev : List Mutation) : List Mutation → List PbMutation
  | [] => []
  | m :: rest =>
    if m.isDelete = true ∧ ∃ p ∈ prev, p.isDelete = true ∧ p.keyStr = m.keyStr then
      dedupEarlierDeletes (prev ++ [m]) rest
    else m.wire.toList ++ dedupEarlierDeletes (prev ++ [m]) rest

/-! ### Witness fixtures for the datastore claims -/


/-- Concrete keys used by witnesses. -/
def kBad : Key := { kind := "", id := 0, name := "" }

/-- A valid, complete key (numeric id set). -/
def kGood : Key := { kind := "K", id := 1, name := "" }

/-- A second valid, complete key, distinct canonical string from `kGood`. -/
def kGood2 : Key := { kind := "K", id := 2, name := "" }

/-- A valid but incomplete key (no id, no name). -/
def kInc : Key := { kind := "K", id := 0, name := "" }


/-!
## Firestore query-builder layer

The query implementation itself is not among the sources here (only its
tests are), so the definitions below are modelled from the spec, with the
tests in `src/datastore/mutation.go` fixing the observable behavior.
-/

/-- Modelled from the spec: the universe of wire values appearing in
filters, cursors and document snapshots, restricted to what the claims
exercise; the write-only sentinels (server timestamp, field delete) are
explicit variants, and IEEE NaN is represented by its own variant. -/
inductive FsVal where
  | int (n : Int) : FsVal
  | str (s : String) : FsVal
  | ref (path : String) : FsVal
  | nullV : FsVal
  | nan : FsVal
  | serverTimestamp : FsVal
  | deleteField : FsVal
deriving DecidableEq, Repr

/-- Whether a value is a write-only sentinel, invalid in read contexts. -/
def isSentinel (v : FsVal) : Bool :=
  match v with
  | .serverTimestamp => true
  | .deleteField => true
  | _ => false

/-- An ordering direction. -/
inductive Direction where
  | asc : Direction
  | desc : Direction
deriving DecidableEq, Repr

/-- An order-by entry: a field path and a direction. -/
structure FsOrder where
  field : List String
  dir : Direction
deriving DecidableEq, Repr

/-- The reserved document-identity field path. -/
def docID : List String := ["__name__"]

/-- Errors of the firestore query layer (spec taxonomy section 7). -/
inductive QErr where
  | invalidPath : QErr
  | invalidFilter : QErr
  | unsupportedFilter : QErr
  | invalidValue : QErr
  | invalidOption : QErr
  | duplicateOption : QErr
  | missingCollection : QErr
  | missingField : QErr
  | mixedCursorType : QErr
  | scopeMismatch : QErr
  | wrongCursorCount : QErr
  | wrongDocIDType : QErr
deriving DecidableEq, Repr

/-- Characters permitted in an unquoted field-path segment. -/
def identChar (c : Char) : Bool := c.isAlphanum || c = '_'

/-- Splitting a character list at a separator character, collecting the
current segment in `acc` (reversed). -/
def splitSegsAux (c : Char) : List Char → List Char → List String
  | [], acc => [String.mk acc.reverse]
  | x :: xs, acc =>
    if x = c then String.mk acc.reverse :: splitSegsAux c xs []
    else splitSegsAux c xs (x :: acc)

/-- Splitting a string at a separator character. -/
def splitSegs (c : Char) (s : String) : List String :=
  splitSegsAux c s.data []

/-- Modelled from the spec: parsing of a dot-separated field-path string;
every segment must be non-empty and consist of identifier characters
(section 6 escaping rules; the tests reject "~", "*", "/", "["). -/
def parsePath (s : String) : Except QErr (List String) :=
  let segs := splitSegs '.' s
  if segs.all (fun t => t ≠ "" && t.data.all identChar) then .ok segs
  else .error .invalidPath

/-- Modelled from the spec: validity of an already-split field path (the
wire field-reference helper `fref`): non-empty, with non-empty segments. -/
def frefOk (p : List String) : Bool :=
  !p.isEmpty && p.all (fun t => t ≠ "")

/-- Wire binary comparison operators. -/
inductive WireOp where
  | lt : WireOp
  | le : WireOp
  | gt : WireOp
  | ge : WireOp
  | eq : WireOp
  | ne : WireOp
  | inOp : WireOp
  | notIn : WireOp
  | arrayContains : WireOp
  | arrayContainsAny : WireOp
deriving DecidableEq, Repr

/-- The allowed operator strings and their wire forms. -/
def binOpFor (op : String) : Option WireOp :=
  match op with
  | "<" => some .lt
  | "<=" => some .le
  | ">" => some .gt
  | ">=" => some .ge
  | "==" => some .eq
  | "!=" => some .ne
  | "in" => some .inOp
  | "not-in" => some .notIn
  | "array-contains" => some .arrayContains
  | "array-contains-any" => some .arrayContainsAny
  | _ => none

/-- Wire unary operators. -/
inductive UnaryOp where
  | isNull : UnaryOp
  | isNaN : UnaryOp
deriving DecidableEq, Repr

/-- The unary operator a value forces, if any: nil forces IsNull and IEEE
NaN forces IsNaN (the wire protocol has no binary equals-null operator). -/
def unaryOpFor (v : FsVal) : Option UnaryOp :=
  match v with
  | .nullV => some .isNull
  | .nan => some .isNaN
  | _ => none

/-- Composite filter connective. -/
inductive CompOp where
  | andC : CompOp
  | orC : CompOp
deriving DecidableEq, Repr

/-- The wire filter tree. -/
inductive PbFilter where
  | fieldF (path : List String) (op : WireOp) (value : FsVal) : PbFilter
  | unary (path : List String) (op : UnaryOp) : PbFilter
  | composite (op : CompOp) (filters : List PbFilter) : PbFilter
deriving Repr

/-- The client-side filter variants (spec section 3). -/
inductive EntityFilter where
  | prop (path : String) (op : String) (value : FsVal) : EntityFilter
  | propPath (path : List String) (op : String) (value : FsVal) : EntityFilter
  | andF (filters : List EntityFilter) : EntityFilter
  | orF (filters : List EntityFilter) : EntityFilter
deriving Repr

/-- Modelled from the spec: lowering of a single property comparison
(spec section 4.1): validate the path; an equality against nil or NaN
becomes a unary filter, any other operator on nil or NaN is rejected with
`unsupportedFilter`; otherwise the operator must be in the allowed set and
the value must not be a write-only sentinel. -/
def propToProto (fp : List String) (op : String) (v : FsVal) : Except QErr PbFilter :=
  if !frefOk fp then .error .invalidPath
  else
    match unaryOpFor v with
    | some u => if op = "==" then .ok (.unary fp u) else .error .unsupportedFilter
    | none =>
      match binOpFor op with
      | some bop => if isSentinel v then .error .invalidValue else .ok (.fieldF fp bop v)
      | none => .error .invalidFilter

mutual

/-- Modelled from the spec: `EntityFilter.toProto`, lowering a filter tree
to its wire form, recursing into composites and propagating the first child
error. -/
def EntityFilter.toProto : EntityFilter → Except QErr PbFilter
  | .prop s op v =>
    match parsePath s with
    | .error e => .error e
    | .ok fp => propToProto fp op v
  | .propPath fp op v => propToProto fp op v
  | .andF fs => (EntityFilter.toProtoList fs).map (fun ps => .composite .andC ps)
  | .orF fs => (EntityFilter.toProtoList fs).map (fun ps => .composite .orC ps)

/-- Lowering of a list of filters, first error wins. -/
def EntityFilter.toProtoList : List EntityFilter → Except QErr (List PbFilter)
  | [] => .ok []
  | f :: fs =>
    match EntityFilter.toProto f, EntityFilter.toProtoList fs with
    | .ok p, .ok ps => .ok (p :: ps)
    | .error e, _ => .error e
    | .ok _, .error e => .error e

end

/-- Modelled from the spec: the conjunctive filter list a query accumulates
through `Where` lowers to nothing, a single filter, or an AND composite. -/
def lowerFilterList (fs : List EntityFilter) : Except QErr (Option PbFilter) :=
  match fs with
  | [] => .ok none
  | [f] => (EntityFilter.toProto f).map some
  | _ => (EntityFilter.toProtoList fs).map (fun ps => some (.composite .andC ps))

/-- Modelled from the spec: the only run option presently defined, the
explain option. -/
structure ExplainOptions where
  analyze : Bool
deriving DecidableEq, Repr

/-- Modelled from the spec: the settings a query carries for dispatch. -/
structure RunQuerySettings where
  explainOptions : Option ExplainOptions
deriving DecidableEq, Repr

/-- Modelled from the spec and `TestExplainOptionsApply`: applying an
explain option to settings that already hold one is a duplicate-option
error; otherwise it is recorded. -/
def ExplainOptions.apply (e : ExplainOptions) (s : RunQuerySettings) :
    Except QErr RunQuerySettings :=
  if s.explainOptions.isSome then .error .duplicateOption
  else .ok { explainOptions := some e }

/-- The fold underlying `newRunQuerySettings`: a nil option (modelled as
`none`) is always an error, and each non-nil option is applied in turn. -/
def applyOpts : List (Option ExplainOptions) → RunQuerySettings → Except QErr RunQuerySettings
  | [], s => .ok s
  | none :: _, _ => .error .invalidOption
  | some e :: rest, s =>
    match e.apply s with
    | .error er => .error er
    | .ok s2 => applyOpts rest s2

/-- Modelled from the spec and `TestNewRunQuerySettings`: build fresh
settings from one variadic option list. -/
def newRunQuerySettings (opts : List (Option ExplainOptions)) : Except QErr RunQuerySettings :=
  applyOpts opts { explainOptions := none }

/-- Modelled from the spec: a previously fetched document snapshot, usable
as a cursor source: its own reference path plus its field values. -/
structure DocSnapshot where
  refPath : String
  fields : List (List String × FsVal)
deriving DecidableEq, Repr

/-- The snapshot's value at a field path, if present. -/
def lookupField (d : DocSnapshot) (p : List String) : Option FsVal :=
  (d.fields.find? (fun kv => kv.1 = p)).map (fun kv => kv.2)

/-- Modelled from the spec: the immutable Query value (spec section 3);
every mutator returns a new value, and `err` is the sticky validation
error. -/
structure Query where
  parentPath : String := ""
  collectionID : String := ""
  selection : Option (List (List String)) := none
  filters : List EntityFilter := []
  orders : List FsOrder := []
  offset : Int := 0
  limit : Option Int := none
  startVals : Option (List FsVal) := none
  endVals : Option (List FsVal) := none
  startDoc : Option DocSnapshot := none
  endDoc : Option DocSnapshot := none
  startBefore : Bool := false
  endBefore : Bool := false
  runQuerySettings : Option RunQuerySettings := none
  err : Option QErr := none
deriving Repr

/-- The query over collection `cid` of a fixed client (the tests use
`Client{projectID: "P", databaseID: "DB"}.Collection(cid)`; the parent path
is abbreviated here). -/
def collQuery (cid : String) : Query :=
  { parentPath := "db", collectionID := cid }

/-- The resource path of the query's collection. -/
def Query.path (q : Query) : String :=
  q.parentPath ++ "/" ++ q.collectionID

/-- Modelled from the spec: `Select`, last call wins; an empty projection
list projects the document identity only. -/
def Query.Select (q : Query) (paths : List String) : Query :=
  if q.err.isSome then q
  else
    match paths.mapM parsePath with
    | .error e => { q with err := some e }
    | .ok ps => { q with selection := some (if ps.isEmpty then [docID] else ps) }

/-- Modelled from the spec: `Where`, sugar for appending a property filter
conjunctively; an invalid path or operator sets the sticky error. -/
def Query.Where (q : Query) (path op : String) (v : FsVal) : Query :=
  if q.err.isSome then q
  else
    match parsePath path with
    | .error e => { q with err := some e }
    | .ok fp =>
      if (binOpFor op).isNone then { q with err := some .invalidFilter }
      else { q with filters := q.filters ++ [.propPath fp op v] }

/-- Modelled from the spec: `WherePath`, the pre-split variant of `Where`. -/
def Query.WherePath (q : Query) (fp : List String) (op : String) (v : FsVal) : Query :=
  if q.err.isSome then q
  else if !frefOk fp then { q with err := some .invalidPath }
  else if (binOpFor op).isNone then { q with err := some .invalidFilter }
  else { q with filters := q.filters ++ [.propPath fp op v] }

/-- Modelled from the spec: `WhereEntity` replaces the filter wholesale with
an arbitrary filter tree, validated at translation time. -/
def Query.WhereEntity (q : Query) (f : EntityFilter) : Query :=
  if q.err.isSome then q else { q with filters := [f] }

/-- Modelled from the spec: `OrderBy` appends an order; duplicates are not
deduplicated. -/
def Query.OrderBy (q : Query) (path : String) (d : Direction) : Query :=
  if q.err.isSome then q
  else
    match parsePath path with
    | .error e => { q with err := some e }
    | .ok fp => { q with orders := q.orders ++ [{ field := fp, dir := d }] }

/-- Modelled from the spec: `OrderByPath`, the pre-split variant. -/
def Query.OrderByPath (q : Query) (fp : List String) (d : Direction) : Query :=
  if q.err.isSome then q
  else if !frefOk fp then { q with err := some .invalidPath }
  else { q with orders := q.orders ++ [{ field := fp, dir := d }] }

/-- Modelled from the spec: `Offset`, last call wins. -/
def Query.Offset (q : Query) (n : Int) : Query :=
  if q.err.isSome then q else { q with offset := n }

/-- Modelled from the spec: `Limit`, last call wins. -/
def Query.Limit (q : Query) (n : Int) : Query :=
  if q.err.isSome then q else { q with limit := some n }

/-- A cursor argument: either literal values, one per order-by field, or a
document snapshot. -/
inductive CursorArg where
  | vals (vs : List FsVal) : CursorArg
  | snap (d : DocSnapshot) : CursorArg
deriving Repr

/-- Modelled from the spec: `StartAt` sets the start bound (inclusive,
before = true), replacing any earlier start bound. -/
def Query.StartAt (q : Query) (a : CursorArg) : Query :=
  if q.err.isSome then q
  else
    match a with
    | .vals vs => { q with startVals := some vs, startDoc := none, startBefore := true }
    | .snap d => { q with startVals := none, startDoc := some d, startBefore := true }

/-- Modelled from the spec: `StartAfter` sets the start bound (exclusive,
before = false), replacing any earlier start bound. -/
def Query.StartAfter (q : Query) (a : CursorArg) : Query :=
  if q.err.isSome then q
  else
    match a with
    | .vals vs => { q with startVals := some vs, startDoc := none, startBefore := false }
    | .snap d => { q with startVals := none, startDoc := some d, startBefore := false }

/-- Modelled from the spec: `EndAt` sets the end bound (inclusive,
before = false), replacing any earlier end bound. -/
def Query.EndAt (q : Query) (a : CursorArg) : Query :=
  if q.err.isSome then q
  else
    match a with
    | .vals vs => { q with endVals := some vs, endDoc := none, endBefore := false }
    | .snap d => { q with endVals := none, endDoc := some d, endBefore := false }

/-- Modelled from the spec: `EndBefore` sets the end bound (exclusive,
before = true), replacing any earlier end bound. -/
def Query.EndBefore (q : Query) (a : CursorArg) : Query :=
  if q.err.isSome then q
  else
    match a with
    | .vals vs => { q with endVals := some vs, endDoc := none, endBefore := true }
    | .snap d => { q with endVals := none, endDoc := some d, endBefore := true }

/-- Modelled from the spec and the scenarios around repeated
`WithRunOptions` calls: each call builds fresh settings from its own
variadic list (so a later call replaces an earlier one), and an error from
the list is recorded as the sticky error. -/
def Query.WithRunOptions (q : Query) (opts : List (Option ExplainOptions)) : Query :=
  if q.err.isSome then q
  else
    match newRunQuerySettings opts with
    | .error e => { q with err := some e }
    | .ok s => { q with runQuerySettings := some s }

/-- Operators that constrain a field by an inequality (everything except
equality and the containment operators). -/
def isIneqOp (op : String) : Bool :=
  op = "<" || op = "<=" || op = ">" || op = ">=" || op = "!=" || op = "not-in"

mutual

/-- Modelled from the test scenarios with a snapshot cursor and an
inequality filter: the field constrained by the first inequality in a
filter tree, if any. -/
def EntityFilter.inequalityPath : EntityFilter → Option (List String)
  | .prop p op _ => if isIneqOp op then (parsePath p).toOption else none
  | .propPath p op _ => if isIneqOp op then some p else none
  | .andF fs => inequalityPathList fs
  | .orF fs => inequalityPathList fs

/-- The first inequality field among a list of filters, if any. -/
def inequalityPathList : List EntityFilter → Option (List String)
  | [] => none
  | f :: fs =>
    match EntityFilter.inequalityPath f with
    | some p => some p
    | none => inequalityPathList fs

end

/-- Modelled from the spec (section 4.3 step 4) and the snapshot-cursor test
scenarios: the effective order-by needed by a document-snapshot cursor.  If
the query already orders by document identity, its orders are kept; if
explicit orders exist, document identity is appended with the direction of
the last one; with no explicit orders, the first inequality-filter field (if
any, ascending) is followed by document identity ascending. -/
def Query.adjustOrders (q : Query) : List FsOrder :=
  if q.orders.any (fun o => o.field = docID) then q.orders
  else
    match q.orders.getLast? with
    | some o => q.orders ++ [{ field := docID, dir := o.dir }]
    | none =>
      match inequalityPathList q.filters with
      | some p => [{ field := p, dir := .asc }, { field := docID, dir := .asc }]
      | none => [{ field := docID, dir := .asc }]

/-- Whether `refPath` names an immediate child document of the collection at
`collPath` (the subcollection scoping rule of the spec). -/
def isImmediateChild (collPath refPath : String) : Bool :=
  let cs := splitSegs '/' collPath
  let rs := splitSegs '/' refPath
  rs.length == cs.length + 1 && rs.take cs.length == cs && rs.getLastD "" != ""

/-- Modelled from the spec: cursor values derived from a document snapshot,
one per effective order: the snapshot's own reference for the identity field
(subject to the scope check), otherwise the snapshot's value at the order
path, missing fields being an error. -/
def snapVals (q : Query) (d : DocSnapshot) : List FsOrder → Except QErr (List FsVal)
  | [] => .ok []
  | o :: os =>
    if o.field = docID then
      if isImmediateChild q.path d.refPath then
        (snapVals q d os).map (fun vs => .ref d.refPath :: vs)
      else .error .scopeMismatch
    else
      match lookupField d o.field with
      | some v => (snapVals q d os).map (fun vs => v :: vs)
      | none => .error .missingField

/-- Modelled from the spec: cursor values from a literal value list, one per
order-by field (a count mismatch is an error); a document-identity order
expects a string document id, converted to a reference under the query's
collection; sentinels are rejected. -/
def posVals (q : Query) : List FsVal → List FsOrder → Except QErr (List FsVal)
  | [], [] => .ok []
  | v :: vs, o :: os =>
    if o.field = docID then
      match v with
      | .str s => (posVals q vs os).map (fun ws => .ref (q.path ++ "/" ++ s) :: ws)
      | _ => .error .wrongDocIDType
    else if isSentinel v then .error .invalidValue
    else (posVals q vs os).map (fun ws => v :: ws)
  | _, _ => .error .wrongCursorCount

/-- A wire cursor: ordered values and the before flag. -/
structure PbCursor where
  values : List FsVal
  before : Bool
deriving DecidableEq, Repr

/-- Modelled from the spec: one endpoint's cursor, from a snapshot if one
was given, else from literal values if given, else absent. -/
def Query.toCursor (q : Query) (vals : Option (List FsVal)) (ds : Option DocSnapshot)
    (before : Bool) (orders : List FsOrder) : Except QErr (Option PbCursor) :=
  match ds with
  | some d => (snapVals q d orders).map (fun vs => some { values := vs, before := before })
  | none =>
    match vals with
    | some fvs => (posVals q fvs orders).map (fun vs => some { values := vs, before := before })
    | none => .ok none

/-- The wire structured query (with the request-level explain options
attached, as in `toRunQueryRequestProto`). -/
structure StructuredQuery where
  collectionID : String
  selection : Option (List (List String))
  whereF : Option PbFilter
  orderBy : List FsOrder
  startAt : Option PbCursor
  endAt : Option PbCursor
  offset : Int
  limit : Option Int
  explainOptions : Option ExplainOptions
deriving Repr

/-- Modelled from the spec (section 4.3): translation of a Query to its
wire form: surface the sticky error first, require a collection id, lower
the filter, validate projection and order paths, reject mixed
snapshot/literal cursor endpoints, compute the effective orders (adjusted
when a snapshot cursor is present) and both cursors, and assemble the
result. -/
def Query.toProto (q : Query) : Except QErr StructuredQuery :=
  match q.err with
  | some e => .error e
  | none =>
    if q.collectionID = "" then .error .missingCollection
    else
      match lowerFilterList q.filters with
      | .error e => .error e
      | .ok wf =>
        if !(match q.selection with | none => true | some ps => ps.all frefOk) then
          .error .invalidPath
        else if !(q.orders.all (fun o => frefOk o.field)) then .error .invalidPath
        else if (q.startDoc.isSome && q.endVals.isSome) ||
            (q.startVals.isSome && q.endDoc.isSome) then .error .mixedCursorType
        else
          let orders := if q.startDoc.isSome || q.endDoc.isSome then q.adjustOrders else q.orders
          match q.toCursor q.startVals q.startDoc q.startBefore orders with
          | .error e => .error e
          | .ok sc =>
            match q.toCursor q.endVals q.endDoc q.endBefore orders with
            | .error e => .error e
            | .ok ec =>
              .ok { collectionID := q.collectionID, selection := q.selection,
                    whereF := wf, orderBy := orders, startAt := sc, endAt := ec,
                    offset := q.offset, limit := q.limit,
                    explainOptions := q.runQuerySettings.bind (fun s => s.explainOptions) }


/-- The value a document-snapshot cursor contributes for one effective
order: the snapshot's own reference for the identity field, otherwise the
snapshot's value at the order path. -/
def snapCursorVal (d : DocSnapshot) (o : FsOrder) : FsVal :=
  if o.field = docID then .ref d.refPath else (lookupField d o.field).getD .nullV

/-- Modelled from the spec (section 9): a Go slice header as the appending
mutators see it: an index into a heap of backing arrays plus a length.
Distinct Query values may share a backing array, which is the aliasing the
immutable-builder-via-copy pattern must keep unobservable. -/
structure GoSlice where
  arrId : Nat
  len : Nat
deriving DecidableEq, Repr

/-- The heap of backing arrays filter slices point into. -/
abbrev SliceHeap : Type := List (List EntityFilter)

/-- The list of filters a slice value denotes. -/
def readSlice (h : SliceHeap) (s : GoSlice) : List EntityFilter :=
  (List.getD h s.arrId []).take s.len

/-- Modelled from the spec (section 9 deep-copy rule) and
`TestQueryMethodsDoNotModifyReceiver`: the slice step shared by the
appending mutators (`Where`, `OrderBy`): the new element goes into a fresh
copy of the receiver's backing array, allocated at the end of the heap;
nothing is written into any existing array. -/
def appendViaCopy (h : SliceHeap) (s : GoSlice) (f : EntityFilter) : SliceHeap × GoSlice :=
  (h ++ [readSlice h s ++ [f]], { arrId := h.length, len := s.len + 1 })

/-- A concrete snapshot for the snapshot-cursor witness: document `db/C/D`
with field `a = 7`. -/
def snapWitnessDoc : DocSnapshot :=
  { refPath := "db/C/D", fields := [(["a"], .int 7)] }

/-- A concrete query for the snapshot-cursor witness: collection `C`,
ordered by `a` ascending, with `snapWitnessDoc` as inclusive start cursor. -/
def snapWitnessQuery : Query :=
  { parentPath := "db", collectionID := "C",
    orders := [{ field := ["a"], dir := .asc }],
    startDoc := some snapWitnessDoc, startBefore := true }

/-! ### Claims about the datastore mutation layer -/

/-- C1: for every ordered list of Mutations in which at least one mutation
carries a sticky error, batch assembly returns no wire mutations and an
aggregate MultiError whose length equals the input length, with each failed
mutation's error at its original index and `none` at every valid index. -/
theorem mutationProtos_error_aggregation (muts : List Mutation)
    (h : ∃ m ∈ muts, m.err.isSome) :
    mutationProtos muts = .error (muts.map Mutation.err) ∧
    (muts.map Mutation.err).length = muts.length ∧
    ∀ i : Fin muts.length,
      (muts.map Mutation.err).get (Fin.cast (muts.length_map Mutation.err).symm i) =
        (muts.get i).err := by
  have hany : muts.any (fun m => m.err.isSome) = true := by
    rcases h with ⟨m, hm, he⟩
    exact List.any_eq_true.mpr ⟨m, hm, he⟩
  refine ⟨by simp [mutationProtos, hany], by simp, ?_⟩
  intro i
  simp [List.getElem_map]

/-- Witness for C1 at a concrete two-element batch: one valid delete, one
insert with a structurally invalid key. -/
theorem mutationProtos_error_aggregation_witness :
    (∃ m ∈ [NewDelete kGood, NewInsert kBad (.value "p")], m.err.isSome) ∧
    mutationProtos [NewDelete kGood, NewInsert kBad (.value "p")] =
      .error [none, some ErrInvalidKey] := by
  refine ⟨by decide, ?_⟩
  have h := (mutationProtos_error_aggregation
    [NewDelete kGood, NewInsert kBad (.value "p")] (by decide)).1
  rw [h]
  have : [NewDelete kGood, NewInsert kBad (.value "p")].map Mutation.err =
      [none, some ErrInvalidKey] := by decide
  rw [this]

/-- The code's seen-set loop agrees with the positional formulation of
delete deduplication, given that `seen` holds exactly the canonical key
strings of the delete mutations in the already-processed prefix `prev`. -/
theorem protosLoop_eq_dedup (muts : List Mutation) :
    ∀ (prev : List Mutation) (seen : List String),
      (∀ s, s ∈ seen ↔ ∃ p ∈ prev, p.isDelete = true ∧ p.keyStr = s) →
      protosLoop muts seen = dedupEarlierDeletes prev muts := by
  induction muts with
  | nil => intro prev seen _; simp [protosLoop, dedupEarlierDeletes]
  | cons m rest ih =>
    intro prev seen hinv
    by_cases hd : m.isDelete = true
    · by_cases hs : m.keyStr ∈ seen
      · have hdup : ∃ p ∈ prev, p.isDelete = true ∧ p.keyStr = m.keyStr :=
          (hinv _).mp hs
        rw [protosLoop, dedupEarlierDeletes, if_pos hd, if_pos hs, if_pos ⟨hd, hdup⟩]
        refine ih (prev ++ [m]) seen (fun s => ?_)
        constructor
        · intro hsmem
          rcases (hinv s).mp hsmem with ⟨p, hp, hpd, hpk⟩
          exact ⟨p, List.mem_append_left _ hp, hpd, hpk⟩
        · rintro ⟨p, hp, hpd, hpk⟩
          rcases List.mem_append.mp hp with hp | hp
          · exact (hinv s).mpr ⟨p, hp, hpd, hpk⟩
          · have : p = m := List.mem_singleton.mp hp
            subst this
            exact hpk ▸ hs
      · have hnodup : ¬(m.isDelete = true ∧ ∃ p ∈ prev, p.isDelete = true ∧ p.keyStr = m.keyStr) := by
          rintro ⟨-, p, hp, hpd, hpk⟩
          exact hs ((hinv m.keyStr).mpr ⟨p, hp, hpd, hpk⟩)
        rw [protosLoop, dedupEarlierDeletes, if_pos hd, if_neg hs, if_neg hnodup]
        congr 1
        refine ih (prev ++ [m]) (m.keyStr :: seen) (fun s => ?_)
        constructor
        · intro hsmem
          rcases List.mem_cons.mp hsmem with hsmem | hsmem
          · exact ⟨m, List.mem_append_right _ (List.mem_singleton.mpr rfl), hd, hsmem.symm⟩
          · rcases (hinv s).mp hsmem with ⟨p, hp, hpd, hpk⟩
            exact ⟨p, List.mem_append_left _ hp, hpd, hpk⟩
        · rintro ⟨p, hp, hpd, hpk⟩
          rcases List.mem_append.mp hp with hp | hp
          · exact List.mem_cons_of_mem _ ((hinv s).mpr ⟨p, hp, hpd, hpk⟩)
          · have : p = m := List.mem_singleton.mp hp
            subst this
            exact hpk ▸ List.mem_cons_self _ _
    · have hnodup : ¬(m.isDelete = true ∧ ∃ p ∈ prev, p.isDelete = true ∧ p.keyStr = m.keyStr) := by
        rintro ⟨hmd, -⟩; exact hd hmd
      rw [protosLoop, dedupEarlierDeletes, if_neg hd, if_neg hnodup]
      congr 1
      refine ih (prev ++ [m]) seen (fun s => ?_)
      constructor
      · intro hsmem
        rcases (hinv s).mp hsmem with ⟨p, hp, hpd, hpk⟩
        exact ⟨p, List.mem_append_left _ hp, hpd, hpk⟩
      · rintro ⟨p, hp, hpd, hpk⟩
        rcases List.mem_append.mp hp with hp | hp
        · exact (hinv s).mpr ⟨p, hp, hpd, hpk⟩
        · have : p = m := List.mem_singleton.mp hp
          subst this
          exact absurd hpd hd

/-- C2: for every list of error-free Mutations, batch assembly emits each
mutation's wire form in input order except that a Delete whose key has the
same canonical string form as an earlier Delete is dropped (first occurrence
kept); Insert, Update and Upsert are never deduplicated, as captured by the
spec-side formulation `dedupEarlierDeletes`, which drops exactly the
repeated Deletes. -/
theorem mutationProtos_dedup (muts : List Mutation)
    (h : ∀ m ∈ muts, m.err = none) :
    mutationProtos muts = .ok (dedupEarlierDeletes [] muts) := by
  have hany : muts.any (fun m => m.err.isSome) = false := by
    rw [List.any_eq_false]
    intro m hm
    rw [h m hm]
    simp
  rw [mutationProtos, hany]
  rw [if_neg (by simp)]
  exact congrArg Except.ok (protosLoop_eq_dedup muts [] [] (by simp))

/-- Witness for C2: three Deletes on one key followed by one Delete on a
different key yield exactly two wire mutations, in first-occurrence order. -/
theorem mutationProtos_dedup_witness :
    (∀ m ∈ [NewDelete kGood, NewDelete kGood, NewDelete kGood, NewDelete kGood2],
      m.err = none) ∧
    mutationProtos [NewDelete kGood, NewDelete kGood, NewDelete kGood, NewDelete kGood2] =
      .ok (dedupEarlierDeletes []
        [NewDelete kGood, NewDelete kGood, NewDelete kGood, NewDelete kGood2]) ∧
    dedupEarlierDeletes [] [NewDelete kGood, NewDelete kGood, NewDelete kGood, NewDelete kGood2] =
      [.delete kGood, .delete kGood2] := by
  refine ⟨by decide, ?_, by decide⟩
  exact mutationProtos_dedup _ (by decide)

/-- C3: each constructor returns a Mutation with sticky error
`ErrInvalidKey` on a structurally invalid key; NewUpdate and NewDelete
additionally return an incomplete-key sticky error on a valid but incomplete
key; and NewDelete (which takes no source value and calls no encoder)
succeeds outright on a valid complete key and never carries an encoding
error. -/
theorem newMutation_key_validation (k : Key) (src : Src) :
    (k.valid = false →
      (NewInsert k src).err = some ErrInvalidKey ∧
      (NewUpsert k src).err = some ErrInvalidKey ∧
      (NewUpdate k src).err = some ErrInvalidKey ∧
      (NewDelete k).err = some ErrInvalidKey) ∧
    (k.valid = true → k.Incomplete = true →
      (NewUpdate k src).err = some (DsErr.incompleteKey "update" k) ∧
      (NewDelete k).err = some (DsErr.incompleteKey "delete" k)) ∧
    (k.valid = true → k.Incomplete = false →
      NewDelete k = { key := some k, wire := some (.delete k), err := none }) ∧
    (∀ msg, (NewDelete k).err ≠ some (DsErr.encoding msg)) := by
  refine ⟨?_, ?_, ?_, ?_⟩
  · intro h1
    simp [NewInsert, NewUpsert, NewUpdate, NewDelete, h1]
  · intro h1 h2
    simp [NewUpdate, NewDelete, h1, h2]
  · intro h1 h2
    simp [NewDelete, h1, h2]
  · intro msg
    unfold NewDelete
    by_cases h1 : k.valid
    · by_cases h2 : k.Incomplete <;> simp [h1, h2, ErrInvalidKey]
    · simp [h1, ErrInvalidKey]

/-- Witness for C3 at concrete keys: an invalid key, a valid incomplete key
and a valid complete key. -/
theorem newMutation_key_validation_witness :
    (NewInsert kBad (.value "p")).err = some ErrInvalidKey ∧
    (NewUpdate kInc (.value "p")).err = some (DsErr.incompleteKey "update" kInc) ∧
    (NewDelete kInc).err = some (DsErr.incompleteKey "delete" kInc) ∧
    NewDelete kGood = { key := some kGood, wire := some (.delete kGood), err := none } := by
  refine ⟨((newMutation_key_validation kBad (.value "p")).1 (by decide)).1,
    ((newMutation_key_validation kInc (.value "p")).2.1 (by decide) (by decide)).1,
    ((newMutation_key_validation kInc (.value "p")).2.1 (by decide) (by decide)).2,
    (newMutation_key_validation kGood (.value "p")).2.2.1 (by decide) (by decide)⟩

/-- C10: a structurally valid but incomplete key is accepted by NewInsert
and NewUpsert whenever entity encoding succeeds: only NewUpdate and
NewDelete check key completeness. -/
theorem insert_upsert_accept_incomplete (k : Key) (src : Src) (p : Entity)
    (hv : k.valid = true) (hInc : k.Incomplete = true)
    (he : saveEntity k src = .ok p) :
    NewInsert k src = { key := some k, wire := some (.insert p), err := none } ∧
    NewUpsert k src = { key := some k, wire := some (.upsert p), err := none } := by
  have _ := hInc
  constructor <;> simp [NewInsert, NewUpsert, hv, he]

/-- Witness for C10 at the concrete valid incomplete key `kInc`. -/
theorem insert_upsert_accept_incomplete_witness :
    NewInsert kInc (.value "p") =
      { key := some kInc, wire := some (.insert { key := kInc, props := "p" }), err := none } ∧
    NewUpsert kInc (.value "p") =
      { key := some kInc, wire := some (.upsert { key := kInc, props := "p" }), err := none } := by
  exact insert_upsert_accept_incomplete kInc (.value "p") _ (by decide) (by decide) rfl
/-! ### Claims about the firestore query layer -/

/-- Settings that already hold an explain option reject the next non-nil
option in the same variadic list as a duplicate. -/
theorem applyOpts_dup (opts : List (Option ExplainOptions))
    (hall : ∀ o ∈ opts, o.isSome = true) (hne : opts ≠ []) (e : ExplainOptions) :
    applyOpts opts { explainOptions := some e } = .error .duplicateOption := by
  match opts, hne with
  | none :: rest, _ => exact absurd (hall none (by simp)) (by simp)
  | some e2 :: rest, _ => simp [applyOpts, ExplainOptions.apply]

/-- Two or more non-nil options in one variadic list produce the
duplicate-option error. -/
theorem newRunQuerySettings_dup (opts : List (Option ExplainOptions))
    (hall : ∀ o ∈ opts, o.isSome = true) (hlen : 2 ≤ opts.length) :
    newRunQuerySettings opts = .error .duplicateOption := by
  match opts, hlen with
  | o1 :: o2 :: rest, _ =>
    match o1, hall o1 (by simp) with
    | some e1, _ =>
      rw [newRunQuerySettings]
      rw [show applyOpts (some e1 :: o2 :: rest) { explainOptions := none } =
        applyOpts (o2 :: rest) { explainOptions := some e1 } from by
          simp [applyOpts, ExplainOptions.apply]]
      exact applyOpts_dup (o2 :: rest) (fun o ho => hall o (List.mem_cons_of_mem _ ho))
        (by simp) e1

/-- A nil option anywhere in the list makes the fold fail. -/
theorem applyOpts_nil_mem (opts : List (Option ExplainOptions)) :
    ∀ s, none ∈ opts → ∃ e, applyOpts opts s = .error e := by
  induction opts with
  | nil => intro s h; simp at h
  | cons o rest ih =>
    intro s h
    match o with
    | none => exact ⟨.invalidOption, rfl⟩
    | some e2 =>
      have hr : none ∈ rest := by
        rcases List.mem_cons.mp h with h | h
        · exact absurd h (by simp)
        · exact h
      rw [applyOpts]
      match hap : e2.apply s with
      | .error er => exact ⟨er, rfl⟩
      | .ok s2 => exact ih s2 hr

/-- A sticky error short-circuits translation. -/
theorem toProto_of_err (q : Query) (e : QErr) (h : q.err = some e) :
    q.toProto = .error e := by
  rw [Query.toProto, h]

/-- C4 (amended): within a single `WithRunOptions` call, two or more explain
options are a duplicate-option error and a nil option value is always an
error, in both cases surfaced as the query's sticky error at translation
time; across repeated `WithRunOptions` calls there is no error — each call's
settings replace the previous call's, so the last call wins. -/
theorem runOptions_validation (q : Query) (hq : q.err = none)
    (opts : List (Option ExplainOptions)) (a b : ExplainOptions) :
    ((∀ o ∈ opts, o.isSome = true) → 2 ≤ opts.length →
      (q.WithRunOptions opts).err = some .duplicateOption ∧
      (q.WithRunOptions opts).toProto = .error .duplicateOption) ∧
    (none ∈ opts → ∃ e, newRunQuerySettings opts = .error e ∧
      (q.WithRunOptions opts).err = some e ∧
      (q.WithRunOptions opts).toProto = .error e) ∧
    (((q.WithRunOptions [some a]).WithRunOptions [some b]).err = none ∧
      ((q.WithRunOptions [some a]).WithRunOptions [some b]).runQuerySettings =
        some { explainOptions := some b }) := by
  refine ⟨?_, ?_, ?_⟩
  · intro hall hlen
    have hdup := newRunQuerySettings_dup opts hall hlen
    have herr : (q.WithRunOptions opts).err = some .duplicateOption := by
      simp [Query.WithRunOptions, hq, hdup]
    exact ⟨herr, toProto_of_err _ _ herr⟩
  · intro hmem
    obtain ⟨e, he⟩ := applyOpts_nil_mem opts { explainOptions := none } hmem
    have he2 : newRunQuerySettings opts = .error e := he
    have herr : (q.WithRunOptions opts).err = some e := by
      simp [Query.WithRunOptions, hq, he2]
    exact ⟨e, he2, herr, toProto_of_err _ _ herr⟩
  · have h1 : q.WithRunOptions [some a] =
        { q with runQuerySettings := some { explainOptions := some a } } := by
      simp [Query.WithRunOptions, hq, newRunQuerySettings, applyOpts, ExplainOptions.apply]
    rw [h1]
    constructor
    · simp [Query.WithRunOptions, hq, newRunQuerySettings, applyOpts, ExplainOptions.apply]
    · simp [Query.WithRunOptions, hq, newRunQuerySettings, applyOpts, ExplainOptions.apply]

/-- Witness for the amended C4 at concrete inputs. -/
theorem runOptions_validation_witness :
    (((collQuery "C").WithRunOptions [some { analyze := true }, some { analyze := false }]).err =
      some QErr.duplicateOption) ∧
    (∃ e, newRunQuerySettings [(none : Option ExplainOptions)] = .error e ∧
      ((collQuery "C").WithRunOptions [none]).err = some e ∧
      ((collQuery "C").WithRunOptions [none]).toProto = .error e) ∧
    (((collQuery "C").WithRunOptions [some { analyze := false }]).WithRunOptions
        [some { analyze := true }]).runQuerySettings =
      some { explainOptions := some { analyze := true } } := by
  have h := runOptions_validation (collQuery "C") rfl
    [some { analyze := true }, some { analyze := false }] { analyze := false } { analyze := true }
  have h2 := runOptions_validation (collQuery "C") rfl [none] { analyze := false } { analyze := true }
  exact ⟨(h.1 (by decide) (by decide)).1, h2.2.1 (by simp), h.2.2.2⟩

/-- C4 counterexample: specifying the explain option across two separate
`WithRunOptions` calls is not an error — translation succeeds and the last
call's options are used. -/
theorem runOptions_repeated_calls_counterexample :
    ∃ sq, (((collQuery "C").WithRunOptions [some { analyze := false }]).WithRunOptions
        [some { analyze := true }]).toProto = .ok sq ∧
      sq.explainOptions = some { analyze := true } := by
  exact ⟨_, rfl, rfl⟩

/-- C5: with an order-by and literal cursor values, `StartAt` yields a start
cursor with before = true, `StartAfter` before = false, `EndAt` an end
cursor with before = false, `EndBefore` before = true; and when several
start (resp. end) setters are chained, the last call alone determines the
bound's values and flag. -/
theorem cursor_direction_algebra (cid : String) (hcid : cid ≠ "")
    (v w v2 w2 : FsVal)
    (hv : isSentinel v = false) (hw : isSentinel w = false)
    (hv2 : isSentinel v2 = false) (hw2 : isSentinel w2 = false) :
    ((((((collQuery cid).OrderByPath ["a"] .asc).StartAt (.vals [v])).EndBefore
          (.vals [w])).toProto.map (fun s => (s.startAt, s.endAt))) =
      .ok (some { values := [v], before := true }, some { values := [w], before := true })) ∧
    ((((((collQuery cid).OrderByPath ["a"] .asc).StartAfter (.vals [v])).EndAt
          (.vals [w])).toProto.map (fun s => (s.startAt, s.endAt))) =
      .ok (some { values := [v], before := false }, some { values := [w], before := false })) ∧
    ((((((collQuery cid).OrderByPath ["a"] .asc).StartAfter (.vals [v])).StartAt
          (.vals [v2])).toProto.map (fun s => s.startAt)) =
      .ok (some { values := [v2], before := true })) ∧
    ((((((collQuery cid).OrderByPath ["a"] .asc).StartAt (.vals [v])).StartAfter
          (.vals [v2])).toProto.map (fun s => s.startAt)) =
      .ok (some { values := [v2], before := false })) ∧
    ((((((collQuery cid).OrderByPath ["a"] .asc).EndAt (.vals [w])).EndBefore
          (.vals [w2])).toProto.map (fun s => s.endAt)) =
      .ok (some { values := [w2], before := true })) ∧
    ((((((collQuery cid).OrderByPath ["a"] .asc).EndBefore (.vals [w])).EndAt
          (.vals [w2])).toProto.map (fun s => s.endAt)) =
      .ok (some { values := [w2], before := false })) := by
  refine ⟨?_, ?_, ?_, ?_, ?_, ?_⟩ <;>
    simp [collQuery, Query.OrderByPath, Query.StartAt, Query.StartAfter, Query.EndAt,
      Query.EndBefore, Query.toProto, lowerFilterList, posVals, Query.toCursor,
      Query.adjustOrders, frefOk, docID, hv, hw, hv2, hw2, hcid, Except.map]

/-- Witness for C5 at concrete values. -/
theorem cursor_direction_algebra_witness :
    ((((((collQuery "C").OrderByPath ["a"] .asc).StartAt (.vals [.int 7])).EndBefore
          (.vals [.int 9])).toProto.map (fun s => (s.startAt, s.endAt))) =
      .ok (some { values := [.int 7], before := true },
        some { values := [.int 9], before := true })) ∧
    ((((((collQuery "C").OrderByPath ["a"] .asc).StartAfter (.vals [.int 1])).StartAt
          (.vals [.int 2])).toProto.map (fun s => s.startAt)) =
      .ok (some { values := [.int 2], before := true })) := by
  have h := cursor_direction_algebra "C" (by decide) (.int 7) (.int 9) (.int 2) (.int 4)
    rfl rfl rfl rfl
  have h2 := cursor_direction_algebra "C" (by decide) (.int 1) (.int 9) (.int 2) (.int 4)
    rfl rfl rfl rfl
  exact ⟨h.1, h2.2.2.1⟩

/-- Cursor values from a snapshot are the per-order `snapCursorVal`s, as
long as every non-identity order field is present in the snapshot and the
snapshot is in scope. -/
theorem snapVals_map (q : Query) (d : DocSnapshot)
    (hscope : isImmediateChild q.path d.refPath = true) :
    ∀ orders : List FsOrder,
      (∀ o ∈ orders, o.field ≠ docID → (lookupField d o.field).isSome = true) →
      snapVals q d orders = .ok (orders.map (snapCursorVal d)) := by
  intro orders
  induction orders with
  | nil => intro _; simp [snapVals]
  | cons o os ih =>
    intro h
    rw [snapVals]
    by_cases hd : o.field = docID
    · rw [if_pos hd, if_pos hscope, ih (fun x hx hxd => h x (List.mem_cons_of_mem _ hx) hxd)]
      simp [snapCursorVal, hd, Except.map]
    · rw [if_neg hd]
      obtain ⟨v, hv⟩ := Option.isSome_iff_exists.mp (h o (List.mem_cons_self _ _) hd)
      rw [hv, ih (fun x hx hxd => h x (List.mem_cons_of_mem _ hx) hxd)]
      simp [snapCursorVal, hd, hv, Except.map]

/-- A query none of whose orders is the identity field fails the identity
test of `adjustOrders`. -/
theorem orders_any_docID_false (q : Query) (hnd : ∀ x ∈ q.orders, x.field ≠ docID) :
    (q.orders.any (fun o => o.field = docID)) = false := by
  rw [List.any_eq_false]
  intro x hx
  simpa using hnd x hx

/-- With explicit orders, none of them the identity field, `adjustOrders`
appends the identity field with the direction of the last order. -/
theorem adjustOrders_append (q : Query) (os : List FsOrder) (o : FsOrder)
    (h : q.orders = os ++ [o]) (hnd : ∀ x ∈ q.orders, x.field ≠ docID) :
    q.adjustOrders = q.orders ++ [{ field := docID, dir := o.dir }] := by
  rw [Query.adjustOrders, if_neg (by simp [orders_any_docID_false q hnd])]
  rw [show q.orders.getLast? = some o from by rw [h]; exact List.getLast?_concat _]

/-- When no explicit order is the identity field, the effective order list
always ends with the identity field. -/
theorem adjustOrders_last_docID (q : Query) (hnd : ∀ x ∈ q.orders, x.field ≠ docID) :
    ∃ dir, q.adjustOrders.getLast? = some { field := docID, dir := dir } := by
  rw [Query.adjustOrders, if_neg (by simp [orders_any_docID_false q hnd])]
  cases hlast : q.orders.getLast? with
  | some o => exact ⟨o.dir, List.getLast?_concat _⟩
  | none =>
    cases hineq : inequalityPathList q.filters with
    | some p => exact ⟨.asc, rfl⟩
    | none => exact ⟨.asc, rfl⟩

/-- C6 (amended): for a query with a document-snapshot start cursor, the
translated order-by is the adjusted order list: with no explicit orders and
no inequality filter it is exactly the identity field ascending; with no
explicit orders but an inequality filter it is that filter's field ascending
followed by the identity field ascending; with explicit orders (none of them
the identity field) the identity field is appended with the direction of the
last one.  The cursor values are the snapshot's field values at each
effective order path, in order, with the snapshot's own reference supplied
for the identity field — hence as the final value. -/
theorem snapshot_cursor_effective_orders (q : Query) (d : DocSnapshot)
    (herr : q.err = none) (hcid : ¬(q.collectionID = ""))
    (wf : Option PbFilter) (hflt : lowerFilterList q.filters = .ok wf)
    (hsel : q.selection = none)
    (hords : q.orders.all (fun o => frefOk o.field) = true)
    (hnodoc : ∀ o ∈ q.orders, o.field ≠ docID)
    (hsd : q.startDoc = some d) (hsv : q.startVals = none)
    (hed : q.endDoc = none) (hev : q.endVals = none)
    (hscope : isImmediateChild q.path d.refPath = true)
    (hpresent : ∀ o ∈ q.adjustOrders, o.field ≠ docID →
      (lookupField d o.field).isSome = true) :
    ∃ sq, q.toProto = .ok sq ∧
      sq.orderBy = q.adjustOrders ∧
      (q.orders = [] → inequalityPathList q.filters = none →
        sq.orderBy = [{ field := docID, dir := .asc }]) ∧
      (∀ p, q.orders = [] → inequalityPathList q.filters = some p →
        sq.orderBy = [{ field := p, dir := .asc }, { field := docID, dir := .asc }]) ∧
      (∀ os o, q.orders = os ++ [o] →
        sq.orderBy = q.orders ++ [{ field := docID, dir := o.dir }]) ∧
      sq.startAt = some ⟨q.adjustOrders.map (snapCursorVal d), q.startBefore⟩ ∧
      (∃ c, sq.startAt = some c ∧ c.values.getLast? = some (FsVal.ref d.refPath)) := by
  have hsnap := snapVals_map q d hscope q.adjustOrders hpresent
  have htp : q.toProto = .ok ⟨q.collectionID, q.selection, wf, q.adjustOrders,
      some ⟨q.adjustOrders.map (snapCursorVal d), q.startBefore⟩, none,
      q.offset, q.limit, q.runQuerySettings.bind (fun s => s.explainOptions)⟩ := by
    rw [Query.toProto, herr]
    simp only [hcid, if_false, hflt, hsel, hords, hsd, hsv, hed, hev]
    simp [Query.toCursor, hsnap, Except.map, hsd, hsv, hed, hev]
  refine ⟨_, htp, rfl, ?_, ?_, ?_, rfl, ?_⟩
  · intro h1 h2
    simp [Query.adjustOrders, h1, h2]
  · intro p h1 h2
    simp [Query.adjustOrders, h1, h2]
  · intro os o h
    exact adjustOrders_append q os o h hnodoc
  · refine ⟨_, rfl, ?_⟩
    obtain ⟨dir, hlast⟩ := adjustOrders_last_docID q hnodoc
    simp [List.getLast?_map, hlast, snapCursorVal]

/-- Witness for the amended C6: order by `a` ascending with snapshot
`a = 7` at `db/C/D` gives orders `[(a, asc), (identity, asc)]` and start
cursor values `[7, ref db/C/D]`. -/
theorem snapshot_cursor_effective_orders_witness :
    ∃ sq, snapWitnessQuery.toProto = .ok sq ∧
      sq.orderBy = [{ field := ["a"], dir := .asc }, { field := docID, dir := .asc }] ∧
      sq.startAt = some ⟨[.int 7, .ref "db/C/D"], true⟩ := by
  obtain ⟨sq, h1, h2, _, _, _, h6, _⟩ := snapshot_cursor_effective_orders
    snapWitnessQuery snapWitnessDoc rfl (by decide) none rfl rfl (by decide) (by decide)
    rfl rfl rfl rfl (by decide) (by decide)
  refine ⟨sq, h1, ?_, ?_⟩
  · rw [h2]; decide
  · rw [h6]; decide

/-- C6 counterexample: a query with no explicit orders but an inequality
filter, given a snapshot cursor, translates with order-by
`[(a, asc), (identity, asc)]` — not exactly `[identity ascending]` as the
claim states for every query with no explicit orders. -/
theorem snapshot_cursor_counterexample :
    (((collQuery "C").Where "a" "<" (.int 3)).StartAt (.snap snapWitnessDoc)).orders = [] ∧
    ∃ sq, (((collQuery "C").Where "a" "<" (.int 3)).StartAt
        (.snap snapWitnessDoc)).toProto = .ok sq ∧
      sq.orderBy = [{ field := ["a"], dir := .asc }, { field := docID, dir := .asc }] ∧
      sq.orderBy ≠ [{ field := docID, dir := Direction.asc }] := by
  exact ⟨rfl, _, rfl, by decide⟩

/-- Every builder method is inert on a query whose sticky error is set. -/
theorem mutators_inert (q1 : Query) (h : q1.err.isSome = true) :
    (∀ ss, q1.Select ss = q1) ∧
    (∀ p o w, q1.Where p o w = q1) ∧
    (∀ p o w, q1.WherePath p o w = q1) ∧
    (∀ f, q1.WhereEntity f = q1) ∧
    (∀ p dd, q1.OrderBy p dd = q1) ∧
    (∀ p dd, q1.OrderByPath p dd = q1) ∧
    (∀ n, q1.Offset n = q1) ∧
    (∀ n, q1.Limit n = q1) ∧
    (∀ a, q1.StartAt a = q1) ∧
    (∀ a, q1.StartAfter a = q1) ∧
    (∀ a, q1.EndAt a = q1) ∧
    (∀ a, q1.EndBefore a = q1) ∧
    (∀ os, q1.WithRunOptions os = q1) := by
  refine ⟨fun ss => by simp [Query.Select, h],
    fun p o w => by simp [Query.Where, h],
    fun p o w => by simp [Query.WherePath, h],
    fun f => by simp [Query.WhereEntity, h],
    fun p dd => by simp [Query.OrderBy, h],
    fun p dd => by simp [Query.OrderByPath, h],
    fun n => by simp [Query.Offset, h],
    fun n => by simp [Query.Limit, h],
    fun a => by simp [Query.StartAt, h],
    fun a => by simp [Query.StartAfter, h],
    fun a => by simp [Query.EndAt, h],
    fun a => by simp [Query.EndBefore, h],
    fun os => by simp [Query.WithRunOptions, h]⟩

/-- C7: a builder chain with an invalid argument (here `Where` with an
unsupported operator) never fails at call time: the call returns a query
carrying a sticky error, every further chained call is inert, and the error
surfaces only at translation, as the filter validation error. -/
theorem sticky_error_propagation (q : Query) (hq : q.err = none)
    (path : String) (fp : List String) (hpath : parsePath path = .ok fp)
    (op : String) (hop : binOpFor op = none) (v : FsVal) :
    ((q.Where path op v).err = some QErr.invalidFilter) ∧
    (∀ ss, (q.Where path op v).Select ss = q.Where path op v) ∧
    (∀ p o w, (q.Where path op v).Where p o w = q.Where path op v) ∧
    (∀ p o w, (q.Where path op v).WherePath p o w = q.Where path op v) ∧
    (∀ f, (q.Where path op v).WhereEntity f = q.Where path op v) ∧
    (∀ p dd, (q.Where path op v).OrderBy p dd = q.Where path op v) ∧
    (∀ p dd, (q.Where path op v).OrderByPath p dd = q.Where path op v) ∧
    (∀ n, (q.Where path op v).Offset n = q.Where path op v) ∧
    (∀ n, (q.Where path op v).Limit n = q.Where path op v) ∧
    (∀ a, (q.Where path op v).StartAt a = q.Where path op v) ∧
    (∀ a, (q.Where path op v).StartAfter a = q.Where path op v) ∧
    (∀ a, (q.Where path op v).EndAt a = q.Where path op v) ∧
    (∀ a, (q.Where path op v).EndBefore a = q.Where path op v) ∧
    (∀ os, (q.Where path op v).WithRunOptions os = q.Where path op v) ∧
    ((q.Where path op v).toProto = .error QErr.invalidFilter) := by
  have herr : (q.Where path op v).err = some .invalidFilter := by
    simp [Query.Where, hq, hpath, hop]
  obtain ⟨hSel, hW, hWP, hWE, hOB, hOBP, hOff, hLim, hSA, hSAf, hEA, hEB, hWRO⟩ :=
    mutators_inert (q.Where path op v) (by rw [herr]; rfl)
  exact ⟨herr, hSel, hW, hWP, hWE, hOB, hOBP, hOff, hLim, hSA, hSAf, hEA, hEB, hWRO,
    toProto_of_err _ _ herr⟩

/-- Witness for C7 at the concrete chain of the spec example,
`Where("a", "<>", 1)`. -/
theorem sticky_error_propagation_witness :
    (((collQuery "C").Where "a" "<>" (.int 1)).err = some QErr.invalidFilter) ∧
    (((collQuery "C").Where "a" "<>" (.int 1)).Limit 5 =
      (collQuery "C").Where "a" "<>" (.int 1)) ∧
    (((collQuery "C").Where "a" "<>" (.int 1)).OrderBy "b" .asc =
      (collQuery "C").Where "a" "<>" (.int 1)) ∧
    (((collQuery "C").Where "a" "<>" (.int 1)).toProto = .error QErr.invalidFilter) := by
  obtain ⟨h1, hSel, hW, hWP, hWE, hOB, hOBP, hOff, hLim, hSA, hSAf, hEA, hEB, hWRO, hTP⟩ :=
    sticky_error_propagation (collQuery "C") rfl "a" ["a"] rfl "<>" rfl (.int 1)
  exact ⟨h1, hLim 5, hOB "b" .asc, hTP⟩

/-- C9: for both the single-path and the path-sequence filter forms, an
equality comparison against nil lowers to a unary IsNull wire filter and an
equality comparison against NaN to a unary IsNaN wire filter — never a
binary field filter — while an inequality comparison against nil or NaN is
rejected with the unsupported-filter error, producing no wire filter. -/
theorem nil_nan_unary_lowering (fp : List String) (hfp : frefOk fp = true)
    (s : String) (hs : parsePath s = .ok fp) :
    (EntityFilter.toProto (.propPath fp "==" .nullV) = .ok (.unary fp .isNull)) ∧
    (EntityFilter.toProto (.propPath fp "==" .nan) = .ok (.unary fp .isNaN)) ∧
    (EntityFilter.toProto (.propPath fp "!=" .nullV) = .error .unsupportedFilter) ∧
    (EntityFilter.toProto (.propPath fp "!=" .nan) = .error .unsupportedFilter) ∧
    (EntityFilter.toProto (.prop s "==" .nullV) = .ok (.unary fp .isNull)) ∧
    (EntityFilter.toProto (.prop s "==" .nan) = .ok (.unary fp .isNaN)) ∧
    (EntityFilter.toProto (.prop s "!=" .nullV) = .error .unsupportedFilter) ∧
    (EntityFilter.toProto (.prop s "!=" .nan) = .error .unsupportedFilter) := by
  refine ⟨?_, ?_, ?_, ?_, ?_, ?_, ?_, ?_⟩ <;>
    simp [EntityFilter.toProto, propToProto, hfp, hs, unaryOpFor]

/-- Witness for C9 at the concrete path `a`. -/
theorem nil_nan_unary_lowering_witness :
    (EntityFilter.toProto (.propPath ["a"] "==" .nullV) = .ok (.unary ["a"] .isNull)) ∧
    (EntityFilter.toProto (.propPath ["a"] "==" .nan) = .ok (.unary ["a"] .isNaN)) ∧
    (EntityFilter.toProto (.propPath ["a"] "!=" .nullV) = .error .unsupportedFilter) ∧
    (EntityFilter.toProto (.propPath ["a"] "!=" .nan) = .error .unsupportedFilter) ∧
    (EntityFilter.toProto (.prop "a" "==" .nullV) = .ok (.unary ["a"] .isNull)) ∧
    (EntityFilter.toProto (.prop "a" "==" .nan) = .ok (.unary ["a"] .isNaN)) ∧
    (EntityFilter.toProto (.prop "a" "!=" .nullV) = .error .unsupportedFilter) ∧
    (EntityFilter.toProto (.prop "a" "!=" .nan) = .error .unsupportedFilter) :=
  nil_nan_unary_lowering ["a"] (by decide) "a" rfl

/-- C8: the appending mutators build the derived query's sequence in a
fresh backing array, so after the call every slice whose array existed
before — the receiver's, and that of any query previously derived from it —
reads exactly as it did before the call, while the derived query reads as
the receiver's sequence plus the new element.  Record-valued fields of the
immutable Query value are copied by value and share no mutable state, so
this covers the only channel through which a mutator could have modified
its receiver. -/
theorem mutators_do_not_modify_receiver (h : SliceHeap) (s t : GoSlice) (f : EntityFilter)
    (ht : t.arrId < h.length) :
    readSlice (appendViaCopy h s f).1 t = readSlice h t ∧
    readSlice (appendViaCopy h s f).1 (appendViaCopy h s f).2 = readSlice h s ++ [f] := by
  constructor
  · simp only [appendViaCopy, readSlice, List.getD_eq_getElem?_getD]
    rw [List.getElem?_append_left ht]
  · simp only [appendViaCopy, readSlice, List.getD_eq_getElem?_getD]
    rw [List.getElem?_concat_length]
    simp only [Option.getD_some]
    apply List.take_of_length_le
    simp only [List.length_append, List.length_take, List.length_singleton]
    omega

/-- Witness for C8 at a concrete one-array heap. -/
theorem mutators_do_not_modify_receiver_witness :
    readSlice (appendViaCopy [[EntityFilter.andF []]] ⟨0, 1⟩ (.andF [])).1 ⟨0, 1⟩ =
      readSlice [[EntityFilter.andF []]] ⟨0, 1⟩ ∧
    readSlice (appendViaCopy [[EntityFilter.andF []]] ⟨0, 1⟩ (.andF [])).1
        (appendViaCopy [[EntityFilter.andF []]] ⟨0, 1⟩ (.andF [])).2 =
      readSlice [[EntityFilter.andF []]] ⟨0, 1⟩ ++ [.andF []] :=
  mutators_do_not_modify_receiver [[EntityFilter.andF []]] ⟨0, 1⟩ ⟨0, 1⟩ (.andF [])
    (by decide)
